import Mathlib

/-!
Verification development for the `react-parking-app` repository
(`src/src/App.tsx`, `src/src/main.tsx`).

The application is a single-page parking-lot UI.  Its domain logic is a
handful of pure functions over an in-memory booking list:

* `slotStatus`   — the slot-id → booking projection (`App.tsx` lines 79–83);
* `handleBook`   — booking creation (`App.tsx` lines 90–104);
* `endSession`   — booking removal after confirmation (`App.tsx` lines 106–110);
* `formatMs`     — duration rendering (`App.tsx` lines 112–118);
* `filteredSlots`— the search filter (`App.tsx` lines 120–128).

JavaScript numbers that hold times and durations are modelled as `Int`
(all values the code produces with them are integral: `Date.now()`,
`durationHours * 60 * 60 * 1000`, millisecond arithmetic).  JavaScript
`String.prototype.includes` and `toLowerCase` are modelled by executable
functions `strIncludes` and `lowerStr` (per-character lowering,
which agrees with the ASCII data the app handles).
-/

namespace ParkingApp

/-- Slot size class, `"large" | "normal"` in the source. -/
inductive SlotSize where
  | large
  | normal
deriving DecidableEq, Repr

/-- The `Slot` interface of `App.tsx` (lines 4–11). -/
structure Slot where
  id : String
  row : Int
  col : Int
  width : Int
  height : Int
  size : SlotSize
deriving DecidableEq, Repr

/-- The `Booking` interface of `App.tsx` (lines 13–20). -/
structure Booking where
  id : String
  slotId : String
  name : String
  plate : String
  start : Int
  durationMs : Int
deriving DecidableEq, Repr

/-- The React state of `ParkingApp` that the domain operations touch:
`bookings`, `selectedSlot`, `showForm`, `detailBooking`, `query`
(`App.tsx` lines 50–58).  The slot list is immutable for the session and
is passed separately where needed. -/
structure AppState where
  bookings : List Booking
  selectedSlot : Option Slot
  showForm : Bool
  detailBooking : Option Booking
  query : String
deriving DecidableEq, Repr

/-- `slotStatus` (`App.tsx` lines 79–83): builds `Record<string, Booking>`
by iterating `bookings.forEach((bk) => (status[bk.slotId] = bk))`.
A JS record lookup that finds no key is modelled as `none`. -/
def slotStatus (bookings : List Booking) : String → Option Booking :=
  bookings.foldl (fun status bk => fun sid => if sid = bk.slotId then some bk else status sid)
    (fun _ => none)

/-- `handleBook` (`App.tsx` lines 90–104): no-op when no slot is selected;
otherwise appends the new booking and resets `showForm`/`selectedSlot`. -/
def handleBook (name plate : String) (durationHours : Int) (now : Int)
    (st : AppState) : AppState :=
  match st.selectedSlot with
  | none => st
  | some sel =>
    let booking : Booking :=
      { id := "B" ++ toString now
        slotId := sel.id
        name := name
        plate := plate
        start := now
        durationMs := durationHours * 60 * 60 * 1000 }
    { st with
        bookings := st.bookings ++ [booking]
        showForm := false
        selectedSlot := none }

/-- The booking record `handleBook` constructs (`App.tsx` lines 93–100),
as a function of the selected slot, the submitted form data and the
current time. -/
def newBooking (sel : Slot) (name plate : String) (durationHours now : Int) :
    Booking :=
  { id := "B" ++ toString now
    slotId := sel.id
    name := name
    plate := plate
    start := now
    durationMs := durationHours * 60 * 60 * 1000 }

/-- `endSession` (`App.tsx` lines 106–110): no-op when the confirmation
dialog is declined; otherwise removes every booking with the given id and
clears `detailBooking` when it referenced that id. -/
def endSession (confirmed : Bool) (id : String) (st : AppState) : AppState :=
  if !confirmed then st
  else
    { st with
        bookings := st.bookings.filter (fun x => x.id != id)
        detailBooking :=
          match st.detailBooking with
          | some d => if d.id = id then none else some d
          | none => none }

/-- `formatMs` (`App.tsx` lines 112–118):
`s = Math.abs(Math.floor(ms / 1000))`, then hours/minutes/seconds and the
template string. `Math.floor` of the real quotient is `Int.fdiv`. -/
def formatMs (ms : Int) : String :=
  let s := (Int.fdiv ms 1000).natAbs
  let h := s / 3600
  let m := (s % 3600) / 60
  let sec := s % 60
  toString h ++ "h " ++ toString m ++ "m " ++ toString sec ++ "s"

/-- Model of JS `String.prototype.toLowerCase`: per-character lowering
(`Char.toLower`), which agrees with `toLowerCase` on the ASCII data the
app handles. -/
def lowerStr (s : String) : String :=
  ⟨s.data.map Char.toLower⟩

/-- Boolean prefix test on character lists (the building block for the
JS `String.prototype.includes` model). -/
def isPre : List Char → List Char → Bool
  | [], _ => true
  | _ :: _, [] => false
  | a :: as, b :: bs => a == b && isPre as bs

/-- Scans every suffix of the haystack for the needle as a prefix. -/
def inclAux (needle : List Char) : List Char → Bool
  | [] => isPre needle []
  | c :: cs => isPre needle (c :: cs) || inclAux needle cs

/-- Model of JS `hay.includes(needle)`: contiguous-substring test
(the empty needle occurs in every string). -/
def strIncludes (hay needle : String) : Bool :=
  inclAux needle.toList hay.toList

/-- The search predicate of `filteredSlots` (`App.tsx` lines 120–128):
`s.id.toLowerCase().includes(q) || b?.plate?.toLowerCase().includes(q) ||
b?.name?.toLowerCase().includes(q)` with `b = slotStatus[s.id]` and
`q = query.toLowerCase()`; optional chaining off an absent booking is
falsy. -/
def slotMatches (bookings : List Booking) (query : String) (s : Slot) : Bool :=
  let b := slotStatus bookings s.id
  let q := lowerStr query
  strIncludes (lowerStr s.id) q ||
    (match b with
     | some bk => strIncludes (lowerStr bk.plate) q
     | none => false) ||
    (match b with
     | some bk => strIncludes (lowerStr bk.name) q
     | none => false)

/-- `filteredSlots` (`App.tsx` lines 120–128). -/
def filteredSlots (slots : List Slot) (bookings : List Booking) (query : String) :
    List Slot :=
  slots.filter (slotMatches bookings query)

/-- The contiguous-substring relation on character lists: `needle` occurs
inside `hay`.  This is the semantics of JS `String.prototype.includes`,
stated independently of the scanning algorithm `strIncludes`. -/
def SubstringOf (needle hay : List Char) : Prop :=
  ∃ pre post, hay = pre ++ needle ++ post

/-- The two booking-store mutations of §4.2: `create` (the submit path
`handleBook`, with the ambient `selectedSlot` at submission time as a
parameter) and `remove` (`endSession`, with the confirmation-dialog
answer as a parameter). -/
inductive Op where
  | create (sel : Option Slot) (name plate : String) (durationHours now : Int)
  | remove (confirmed : Bool) (id : String)

/-- Effect of one operation on the booking list, obtained by running the
corresponding `App.tsx` handler on a state carrying that list. -/
def applyOp (bs : List Booking) : Op → List Booking
  | .create sel name plate dh now =>
    (handleBook name plate dh now ⟨bs, sel, true, none, ""⟩).bookings
  | .remove c id =>
    (endSession c id ⟨bs, none, false, none, ""⟩).bookings

/-- Booking lists reachable from the empty list by some sequence of
create/remove operations. -/
def Reachable (bs : List Booking) : Prop :=
  ∃ ops : List Op, ops.foldl applyOp [] = bs

/-- Booking lists reachable when every create runs only while the
selected slot is free in the current projection — the guard the UI click
dispatch provides (`App.tsx` line 165: a click on an occupied slot opens
the detail panel instead of the booking form). -/
inductive GuardedReach : List Booking → Prop
  | nil : GuardedReach []
  | create (bs : List Booking) (sel : Option Slot) (name plate : String)
      (dh now : Int) :
      GuardedReach bs →
      (∀ s, sel = some s → slotStatus bs s.id = none) →
      GuardedReach (applyOp bs (.create sel name plate dh now))
  | remove (bs : List Booking) (c : Bool) (id : String) :
      GuardedReach bs →
      GuardedReach (applyOp bs (.remove c id))

/-- A minimal JSON value AST for the storage layer. -/
inductive Json where
  | str (s : String)
  | num (n : Int)
  | arr (elems : List Json)
  | obj (fields : List (String × Json))

/-- Modelled from the spec: the storage representation of a size class
inside the JSON-serialized slot object (§3, §6); the source stores the
string `"large"` or `"normal"` via `JSON.stringify`. -/
def sizeToJson : SlotSize → Json
  | .large => .str "large"
  | .normal => .str "normal"

/-- Modelled from the spec: decoding a size class from storage
(`JSON.parse` of the §3 field). -/
def sizeOfJson : Json → Option SlotSize
  | .str "large" => some .large
  | .str "normal" => some .normal
  | _ => none

/-- Modelled from the spec: `JSON.stringify` of one slot — an object with
the §3 fields `id`, `row`, `col`, `width`, `height`, `size`. -/
def slotToJson (s : Slot) : Json :=
  .obj [("id", .str s.id), ("row", .num s.row), ("col", .num s.col),
        ("width", .num s.width), ("height", .num s.height),
        ("size", sizeToJson s.size)]

/-- Modelled from the spec: `JSON.parse` of one stored slot object. -/
def slotOfJson : Json → Option Slot
  | .obj [("id", .str id), ("row", .num row), ("col", .num col),
          ("width", .num width), ("height", .num height), ("size", sz)] =>
    (sizeOfJson sz).map (fun size => ⟨id, row, col, width, height, size⟩)
  | _ => none

/-- Modelled from the spec: `JSON.stringify` of one booking — an object
with the §3 fields `id`, `slotId`, `name`, `plate`, `start`,
`durationMs`. -/
def bookingToJson (b : Booking) : Json :=
  .obj [("id", .str b.id), ("slotId", .str b.slotId), ("name", .str b.name),
        ("plate", .str b.plate), ("start", .num b.start),
        ("durationMs", .num b.durationMs)]

/-- Modelled from the spec: `JSON.parse` of one stored booking object. -/
def bookingOfJson : Json → Option Booking
  | .obj [("id", .str id), ("slotId", .str slotId), ("name", .str name),
          ("plate", .str plate), ("start", .num start),
          ("durationMs", .num durationMs)] =>
    some ⟨id, slotId, name, plate, start, durationMs⟩
  | _ => none

/-- Element-wise decoding of a JSON array body; fails if any element
fails (a corrupted payload throws during parse, §7). -/
def decodeArr (f : Json → Option α) : List Json → Option (List α)
  | [] => some []
  | j :: js =>
    match f j, decodeArr f js with
    | some a, some as => some (a :: as)
    | _, _ => none

/-- Modelled from the spec: the value stored under `parking_slots_v1` —
a JSON-serialized array of slot objects (§6). -/
def slotsToJson (l : List Slot) : Json :=
  .arr (l.map slotToJson)

/-- Modelled from the spec: loading the slot list from storage. -/
def slotsOfJson : Json → Option (List Slot)
  | .arr js => decodeArr slotOfJson js
  | _ => none

/-- Modelled from the spec: the value stored under `parking_bookings_v1`
— a JSON-serialized array of booking objects (§6). -/
def bookingsToJson (l : List Booking) : Json :=
  .arr (l.map bookingToJson)

/-- Modelled from the spec: loading the booking list from storage. -/
def bookingsOfJson : Json → Option (List Booking)
  | .arr js => decodeArr bookingOfJson js
  | _ => none

/-- A concrete slot used by counterexamples and witnesses. -/
def slotP1 : Slot :=
  ⟨"P1", 0, 0, 90, 150, .normal⟩

/-- The booking `handleBook` creates at time 0 on `slotP1` for renter
`"a"`, plate `"x"`, one hour. -/
def bkA : Booking :=
  ⟨"B0", "P1", "a", "x", 0, 3600000⟩

/-- The booking `handleBook` creates at time 1 on `slotP1` for renter
`"b"`, plate `"y"`, one hour. -/
def bkB : Booking :=
  ⟨"B1", "P1", "b", "y", 1, 3600000⟩

/-- A booking whose renter name contains `"ab"` but whose plate and slot
id do not (for the search-filter claims). -/
def bkC6 : Booking :=
  ⟨"B9", "P1", "lab", "XYZ", 7, 3600000⟩

/-- A state holding two bookings that reference the same slot `"P1"`. -/
def stTwoOnP1 : AppState :=
  ⟨[bkA, bkB], none, false, none, ""⟩

/-- A state holding the single booking `bkA`. -/
def stOneBooking : AppState :=
  ⟨[bkA], none, false, none, ""⟩

/-- The operation sequence: create on `slotP1` at time 0, then create on
`slotP1` again at time 1 — the second create runs while the slot is
already occupied, which `handleBook` never checks. -/
def opsDup : List Op :=
  [.create (some slotP1) "a" "x" 1 0, .create (some slotP1) "b" "y" 1 1]

/-! ### Lemmas about the status projection -/

lemma slotStatus_nil (sid : String) : slotStatus [] sid = none := rfl

lemma slotStatus_append (bs : List Booking) (bk : Booking) (sid : String) :
    slotStatus (bs ++ [bk]) sid =
      if sid = bk.slotId then some bk else slotStatus bs sid := by
  simp [slotStatus, List.foldl_append]

lemma slotStatus_eq_getLast (bs : List Booking) (sid : String) :
    slotStatus bs sid = (bs.filter (fun b => b.slotId == sid)).getLast? := by
  induction bs using List.reverseRecOn with
  | nil => rfl
  | append_singleton l a ih =>
    rw [slotStatus_append, List.filter_append]
    by_cases h : sid = a.slotId
    · simp [List.filter_cons, h.symm, List.getLast?_concat]
    · have hb : (a.slotId == sid) = false := by
        simp [beq_eq_false_iff_ne]
        exact fun he => h he.symm
      simp [List.filter_cons, hb, h, ih]

lemma slotStatus_eq_none_iff (bs : List Booking) (sid : String) :
    slotStatus bs sid = none ↔ ∀ b ∈ bs, b.slotId ≠ sid := by
  rw [slotStatus_eq_getLast, List.getLast?_eq_none_iff, List.filter_eq_nil_iff]
  simp

/-- C4: the status projection is last-write-wins — it maps `s` to the
last booking whose `slotId` is `s`, and to nothing when no booking
references `s`. -/
theorem slotStatus_lastWriteWins (bs : List Booking) (s : String) :
    slotStatus bs s = (bs.filter (fun b => b.slotId == s)).getLast? ∧
      (slotStatus bs s = none ↔ ∀ b ∈ bs, b.slotId ≠ s) :=
  ⟨slotStatus_eq_getLast bs s, slotStatus_eq_none_iff bs s⟩

/-- C2: with a slot selected, `handleBook` appends exactly one booking —
slot id the selected slot's, start the current time, duration
`durationHours * 60 * 60 * 1000` — to the end of the list; with no slot
selected it leaves the whole state unchanged. -/
theorem handleBook_spec (bs : List Booking) (sel : Slot) (sf : Bool)
    (db : Option Booking) (qq : String) (n p : String) (dh now : Int) :
    (handleBook n p dh now ⟨bs, some sel, sf, db, qq⟩).bookings =
        bs ++ [newBooking sel n p dh now] ∧
      (newBooking sel n p dh now).slotId = sel.id ∧
      (newBooking sel n p dh now).start = now ∧
      (newBooking sel n p dh now).durationMs = dh * 60 * 60 * 1000 ∧
      handleBook n p dh now ⟨bs, none, sf, db, qq⟩ = ⟨bs, none, sf, db, qq⟩ :=
  ⟨rfl, rfl, rfl, rfl, rfl⟩

/-- C7: creating a booking for a selected slot and then reading the
status projection shows that slot occupied by a booking carrying the
submitted name and plate. -/
theorem create_then_project (bs : List Booking) (sel : Slot) (sf : Bool)
    (db : Option Booking) (qq : String) (n p : String) (dh now : Int) :
    ∃ bk : Booking,
      slotStatus (handleBook n p dh now ⟨bs, some sel, sf, db, qq⟩).bookings
          sel.id = some bk ∧ bk.name = n ∧ bk.plate = p := by
  refine ⟨newBooking sel n p dh now, ?_, rfl, rfl⟩
  have hb : (handleBook n p dh now ⟨bs, some sel, sf, db, qq⟩).bookings =
      bs ++ [newBooking sel n p dh now] := rfl
  rw [hb, slotStatus_append]
  simp [newBooking]

/-- C8: `formatMs (-5000) = "0h 0m 5s"` (overtime rendering of five
seconds past due) and `formatMs 3661000 = "1h 1m 1s"`. -/
theorem formatMs_values :
    formatMs (-5000) = "0h 0m 5s" ∧ formatMs 3661000 = "1h 1m 1s" := by
  constructor <;> rfl

/-- C10: a declined end-session confirmation changes nothing — the whole
state, in particular the booking list and the detail-panel selection, is
exactly as before. -/
theorem endSession_declined (st : AppState) (id : String) :
    endSession false id st = st := rfl

/-- C3 counterexample: in a list where two bookings reference slot
`"P1"`, ending `bkA` (with confirmation) does not free the slot — the
projection still maps `"P1"` to the surviving booking `bkB`. -/
theorem endSession_not_freeing_cex :
    bkA ∈ stTwoOnP1.bookings ∧
      ¬ slotStatus (endSession true bkA.id stTwoOnP1).bookings bkA.slotId
          = none := by
  refine ⟨by decide, ?_⟩
  intro h
  have hb : (endSession true bkA.id stTwoOnP1).bookings = [bkB] := by decide
  rw [hb] at h
  have := (slotStatus_eq_none_iff [bkB] bkA.slotId).mp h bkB (by decide)
  exact this (by decide)

/-- C3 (amended): ending a booking `b` removes every booking with `b`'s
id from the list; and when no other booking references `b`'s slot (in
particular under the one-booking-per-slot invariant), `b`'s slot is free
in the next projection. -/
theorem endSession_removes (st : AppState) (b : Booking)
    (hb : b ∈ st.bookings) :
    (∀ x ∈ (endSession true b.id st).bookings, x.id ≠ b.id) ∧
      ((∀ x ∈ st.bookings, x.slotId = b.slotId → x.id = b.id) →
        slotStatus (endSession true b.id st).bookings b.slotId = none) := by
  have hbk : (endSession true b.id st).bookings =
      st.bookings.filter (fun x => x.id != b.id) := rfl
  constructor
  · intro x hx
    rw [hbk] at hx
    have hne := (List.mem_filter.mp hx).2
    simpa using hne
  · intro huniq
    rw [hbk, slotStatus_eq_none_iff]
    intro x hx
    rcases List.mem_filter.mp hx with ⟨hxin, hne⟩
    intro hslot
    have hid : x.id = b.id := huniq x hxin hslot
    simp [hid] at hne

/-- C3 witness: ending `bkA` in the one-booking state removes its id and
frees slot `"P1"`. -/
theorem endSession_removes_w :
    bkA ∈ stOneBooking.bookings ∧
      (∀ x ∈ (endSession true bkA.id stOneBooking).bookings, x.id ≠ bkA.id) ∧
      slotStatus (endSession true bkA.id stOneBooking).bookings bkA.slotId
        = none := by
  have hmem : bkA ∈ stOneBooking.bookings := by decide
  have h := endSession_removes stOneBooking bkA hmem
  exact ⟨hmem, h.1, h.2 (by decide)⟩

/-! ### Lemmas for the storage round trip -/

lemma slotOfJson_roundtrip (s : Slot) : slotOfJson (slotToJson s) = some s := by
  cases s with
  | mk id row col width height size => cases size <;> rfl

lemma bookingOfJson_roundtrip (b : Booking) :
    bookingOfJson (bookingToJson b) = some b := by
  cases b
  rfl

lemma decodeArr_map {α : Type} (f : α → Json) (g : Json → Option α)
    (hrt : ∀ a, g (f a) = some a) :
    ∀ l : List α, decodeArr g (l.map f) = some l
  | [] => rfl
  | a :: l => by
    simp [decodeArr, hrt a, decodeArr_map f g hrt l]

/-- C9: serializing a slot list and a booking list to their storage
representation (JSON arrays of §3 field objects) and deserializing them
back restores them exactly — reloading the app restores the prior
session's layout and open bookings. -/
theorem storage_roundtrip (sl : List Slot) (bl : List Booking) :
    slotsOfJson (slotsToJson sl) = some sl ∧
      bookingsOfJson (bookingsToJson bl) = some bl := by
  constructor
  · show decodeArr slotOfJson (sl.map slotToJson) = some sl
    exact decodeArr_map _ _ slotOfJson_roundtrip sl
  · show decodeArr bookingOfJson (bl.map bookingToJson) = some bl
    exact decodeArr_map _ _ bookingOfJson_roundtrip bl

/-! ### Lemmas about the search filter -/

lemma isPre_iff : ∀ n h : List Char, isPre n h = true ↔ ∃ post, h = n ++ post
  | [], h => by
    simp [isPre]
  | a :: as, [] => by
    simp [isPre]
  | a :: as, b :: bs => by
    rw [show isPre (a :: as) (b :: bs) = (a == b && isPre as bs) from rfl]
    simp only [Bool.and_eq_true, beq_iff_eq, isPre_iff as bs]
    constructor
    · rintro ⟨hab, post, hp⟩
      exact ⟨post, by rw [hab, hp]; rfl⟩
    · rintro ⟨post, hp⟩
      injection hp with h1 h2
      exact ⟨h1.symm, post, h2⟩

lemma inclAux_iff : ∀ n h : List Char, inclAux n h = true ↔ SubstringOf n h
  | n, [] => by
    rw [show inclAux n [] = isPre n [] from rfl, isPre_iff n []]
    simp only [SubstringOf]
    constructor
    · rintro ⟨post, hp⟩
      exact ⟨[], post, by simpa using hp⟩
    · rintro ⟨pre, post, hp⟩
      obtain ⟨hpn, hpost⟩ := List.append_eq_nil.mp hp.symm
      obtain ⟨hpre, hn⟩ := List.append_eq_nil.mp hpn
      exact ⟨[], by simp [hn]⟩
  | n, c :: cs => by
    simp only [inclAux, Bool.or_eq_true, isPre_iff, inclAux_iff n cs, SubstringOf]
    constructor
    · rintro (⟨post, hp⟩ | ⟨pre, post, hp⟩)
      · exact ⟨[], post, by simpa using hp⟩
      · exact ⟨c :: pre, post, by simp [hp]⟩
    · rintro ⟨pre, post, hp⟩
      cases pre with
      | nil => exact Or.inl ⟨post, by simpa using hp⟩
      | cons c' pre' =>
        simp at hp
        exact Or.inr ⟨pre', post, by rw [List.append_assoc]; exact hp.2⟩

/-- `strIncludes` decides the contiguous-substring relation — the
semantics of JS `String.prototype.includes`. -/
lemma strIncludes_iff (hay needle : String) :
    strIncludes hay needle = true ↔ SubstringOf needle.toList hay.toList :=
  inclAux_iff needle.toList hay.toList

lemma strIncludes_empty_needle (h : String) : strIncludes h "" = true := by
  have h0 : ("" : String).toList = [] := rfl
  unfold strIncludes
  rw [h0]
  cases h.toList with
  | nil => rfl
  | cons c cs => simp [inclAux, isPre]

lemma mem_filteredSlots_iff (slots : List Slot) (bks : List Booking)
    (q : String) (s : Slot) :
    s ∈ filteredSlots slots bks q ↔
      s ∈ slots ∧
        (strIncludes (lowerStr s.id) (lowerStr q) = true ∨
          ∃ bk, slotStatus bks s.id = some bk ∧
            (strIncludes (lowerStr bk.plate) (lowerStr q) = true ∨
             strIncludes (lowerStr bk.name) (lowerStr q) = true)) := by
  rw [filteredSlots, List.mem_filter]
  cases hb : slotStatus bks s.id with
  | none => simp [slotMatches, hb]
  | some bk => simp [slotMatches, hb, or_assoc]

lemma filteredSlots_empty_query (slots : List Slot) (bks : List Booking) :
    filteredSlots slots bks "" = slots := by
  rw [filteredSlots]
  apply List.filter_eq_self.mpr
  intro a _
  have h0 : lowerStr "" = "" := by decide
  simp [slotMatches, h0, strIncludes_empty_needle]

/-- C5: the search filter retains a slot `s` iff the lowercased query is
a substring of `s`'s lowercased id, or of the occupying booking's
lowercased plate or name; the empty query retains every slot; a slot
with no occupying booking is retained only via its id. -/
theorem searchFilter_spec (slots : List Slot) (bks : List Booking)
    (q : String) (s : Slot) :
    (s ∈ filteredSlots slots bks q ↔
       s ∈ slots ∧
         (SubstringOf (lowerStr q).toList (lowerStr s.id).toList ∨
           ∃ bk, slotStatus bks s.id = some bk ∧
             (SubstringOf (lowerStr q).toList (lowerStr bk.plate).toList ∨
              SubstringOf (lowerStr q).toList (lowerStr bk.name).toList))) ∧
      filteredSlots slots bks "" = slots ∧
      (slotStatus bks s.id = none →
        (s ∈ filteredSlots slots bks q ↔
          s ∈ slots ∧ SubstringOf (lowerStr q).toList (lowerStr s.id).toList)) := by
  refine ⟨?_, filteredSlots_empty_query slots bks, ?_⟩
  · rw [mem_filteredSlots_iff]
    simp [strIncludes_iff]
  · intro h
    rw [mem_filteredSlots_iff]
    simp [h, strIncludes_iff]

/-- C5 witness: with no bookings, slot `P1` has no occupying booking, and
it is retained by the query `"p"` exactly when `"p"` occurs in its
lowercased id. -/
theorem searchFilter_spec_w :
    slotStatus ([] : List Booking) slotP1.id = none ∧
      (slotP1 ∈ filteredSlots [slotP1] [] "p" ↔
        slotP1 ∈ [slotP1] ∧
          SubstringOf (lowerStr "p").toList (lowerStr slotP1.id).toList) :=
  ⟨rfl, (searchFilter_spec [slotP1] [] "p" slotP1).2.2 rfl⟩

/-- C6 counterexample: for the query `"AB"`, the filter also retains a
slot because the occupying booking's *name* contains `"ab"` — here slot
`P1` is kept although neither its id (`"p1"`) nor the occupying plate
(`"xyz"`) contains `"ab"`, refuting "and no other slots". -/
theorem searchAB_cex :
    filteredSlots [slotP1] [bkC6] "AB" = [slotP1] ∧
      slotStatus [bkC6] slotP1.id = some bkC6 ∧
      ¬ SubstringOf (lowerStr "AB").toList (lowerStr slotP1.id).toList ∧
      ¬ SubstringOf (lowerStr "AB").toList (lowerStr bkC6.plate).toList := by
  refine ⟨by decide, by decide, fun hs => ?_, fun hs => ?_⟩
  · have h := (strIncludes_iff (lowerStr slotP1.id) (lowerStr "AB")).mpr hs
    exact absurd h (by decide)
  · have h := (strIncludes_iff (lowerStr bkC6.plate) (lowerStr "AB")).mpr hs
    exact absurd h (by decide)

/-- C6 (amended): for the query `"AB"` the filter returns exactly the
slots whose lowercased id contains `"ab"`, plus the slots whose occupying
booking's lowercased plate or lowercased *name* contains `"ab"`. -/
theorem searchAB_spec (slots : List Slot) (bks : List Booking) (s : Slot) :
    s ∈ filteredSlots slots bks "AB" ↔
      s ∈ slots ∧
        (SubstringOf ['a', 'b'] (lowerStr s.id).toList ∨
          ∃ bk, slotStatus bks s.id = some bk ∧
            (SubstringOf ['a', 'b'] (lowerStr bk.plate).toList ∨
             SubstringOf ['a', 'b'] (lowerStr bk.name).toList)) := by
  have hq : (lowerStr "AB").data = ['a', 'b'] := by decide
  rw [mem_filteredSlots_iff]
  simp [strIncludes_iff, hq]

/-- C1 counterexample: the booking list produced by two creates on slot
`P1` (the second while the slot is already occupied) is reachable from
the empty list, and it holds two bookings referencing `P1` — `handleBook`
never checks occupancy. -/
theorem dupSlotBooking_cex :
    Reachable [bkA, bkB] ∧
      ¬ (([bkA, bkB] : List Booking).countP (fun b => b.slotId == "P1") ≤ 1) := by
  constructor
  · exact ⟨opsDup, by decide⟩
  · decide

/-- C1 (amended): when every create runs only while its selected slot is
free in the current projection — the guard the UI click flow provides —
every reachable booking list references each slot at most once. -/
theorem guardedReach_unique_slot (bs : List Booking) (h : GuardedReach bs)
    (sid : String) :
    bs.countP (fun b => b.slotId == sid) ≤ 1 := by
  induction h with
  | nil => simp
  | create bs sel n p dh now hg hguard ih =>
    cases sel with
    | none => simpa [applyOp, handleBook] using ih
    | some s =>
      have happ : applyOp bs (.create (some s) n p dh now) =
          bs ++ [newBooking s n p dh now] := rfl
      rw [happ, List.countP_append]
      by_cases hs : s.id = sid
      · subst hs
        have hnone : slotStatus bs s.id = none := hguard s rfl
        have hzero : bs.countP (fun b => b.slotId == s.id) = 0 := by
          rw [List.countP_eq_zero]
          intro a ha
          have hne := (slotStatus_eq_none_iff bs s.id).mp hnone a ha
          simpa using hne
        have hone : ([newBooking s n p dh now] : List Booking).countP
            (fun b => b.slotId == s.id) = 1 := by
          simp [List.countP_cons, newBooking]
        omega
      · have hnb : ((newBooking s n p dh now).slotId == sid) = false := by
          simpa [newBooking] using hs
        have hzero : ([newBooking s n p dh now] : List Booking).countP
            (fun b => b.slotId == sid) = 0 := by
          simp [List.countP_cons, hnb]
        omega
  | remove bs c id hg ih =>
    cases c with
    | false => simpa [applyOp, endSession] using ih
    | true =>
      have happ : applyOp bs (.remove true id) =
          bs.filter (fun x => x.id != id) := rfl
      rw [happ]
      exact le_trans ((List.filter_sublist bs).countP_le _) ih

/-- C1 witness: the single-booking list obtained by one guarded create on
the initially free slot `P1` satisfies the invariant. -/
theorem guardedReach_unique_slot_w :
    GuardedReach [bkA] ∧
      ([bkA] : List Booking).countP (fun b => b.slotId == "P1") ≤ 1 := by
  have hg : GuardedReach [bkA] := by
    have h := GuardedReach.create [] (some slotP1) "a" "x" 1 0
      GuardedReach.nil (fun s hs => by cases hs; rfl)
    have he : applyOp [] (Op.create (some slotP1) "a" "x" 1 0) = [bkA] := by
      decide
    rwa [he] at h
  exact ⟨hg, guardedReach_unique_slot [bkA] hg "P1"⟩

end ParkingApp
